import Mathlib

/-!
Verification of the CodeCanvas trace-generation simulator
(`src/services/geminiService.ts` plus the `ExecutionStep` record of
`src/types.ts`) against its specification.

The TypeScript source is shallowly embedded: JavaScript strings become
`String` (manipulated through their underlying `List Char`), JavaScript
numbers appearing in this program are integers and become `Int` (array
elements) or `Nat` (lengths and loop indices), the mutable simulator state
becomes an explicit `SimState` record threaded through the loops, and
thrown exceptions become `Except String`.
-/

/-! ## Character classes and string search helpers -/

/-- Whitespace characters, modelling the JavaScript regex class `\s`
restricted to the ASCII range (plus nothing else occurs in this program). -/
def isSpaceChar (c : Char) : Bool :=
  c = ' ' || c = '\t' || c = '\n' || c = '\r' || c = '\x0b' || c = '\x0c'

/-- The regex character class `[a-zA-Z0-9_]` used for the array name. -/
def isWordChar (c : Char) : Bool :=
  c.isAlpha || c.isDigit || c = '_'

/-- The regex metacharacter `.` (without the dotAll flag): any character
except a line terminator. -/
def isDotChar (c : Char) : Bool :=
  !(c = '\n' || c = '\r')

/-- `isPrefixChars need hay` is true when `need` is a prefix of `hay`. -/
def isPrefixChars : List Char → List Char → Bool
  | [], _ => true
  | _ :: _, [] => false
  | a :: as, b :: bs => a = b && isPrefixChars as bs

/-- `containsChars need hay` is true when `need` occurs contiguously in
`hay`; this is the semantics of JavaScript `hay.includes(need)`. -/
def containsChars (need : List Char) : List Char → Bool
  | [] => isPrefixChars need []
  | c :: rest => isPrefixChars need (c :: rest) || containsChars need rest

/-- JavaScript `line.includes(searchString)`. -/
def strIncludes (line searchString : String) : Bool :=
  containsChars searchString.data line.data

/-- JavaScript `code.split('\n')`: split a character list at every newline. -/
def splitLinesAux (acc : List Char) : List Char → List String
  | [] => [acc.reverse.asString]
  | c :: cs =>
      if c = '\n' then acc.reverse.asString :: splitLinesAux [] cs
      else splitLinesAux (c :: acc) cs

/-- The simulator constructor's `code.split('\n')`. -/
def splitLines (code : String) : List String :=
  splitLinesAux [] code.data

/-- JavaScript `Array.prototype.join(sep)` on a list of strings. -/
def joinSep (sep : String) : List String → String
  | [] => ""
  | [x] => x
  | x :: y :: xs => x ++ sep ++ joinSep sep (y :: xs)

/-! ## The line locator `findLine` -/

/-- The `codeLines.findIndex((line, i) => i >= startLine && line.includes(searchString))`
call inside `findLine`, with `idx` the index of the head of the remaining list. -/
def findIdxAux (searchString : String) (startLine : Nat) : List String → Nat → Option Nat
  | [], _ => none
  | l :: ls, idx =>
      if startLine ≤ idx ∧ strIncludes l searchString then some idx
      else findIdxAux searchString startLine ls (idx + 1)

/-- The 0-based index of the first line at or after `startLine` that contains
`searchString`, if any. -/
def findIndexFrom (codeLines : List String) (searchString : String) (startLine : Nat) :
    Option Nat :=
  findIdxAux searchString startLine codeLines 0

/-- The source's `findLine`: 1-based line number of the first matching line at
or after `startLine`, with fallback `startLine + 1` when no line matches. -/
def findLine (codeLines : List String) (searchString : String) (startLine : Nat) : Nat :=
  match findIndexFrom codeLines searchString startLine with
  | some index => index + 1
  | none => startLine + 1

/-! ## Decimal rendering of numbers (JavaScript number-to-string) -/

/-- A single decimal digit character. -/
def digitChar : Nat → Char
  | 0 => '0' | 1 => '1' | 2 => '2' | 3 => '3' | 4 => '4'
  | 5 => '5' | 6 => '6' | 7 => '7' | 8 => '8' | _ => '9'

/-- Digit-extraction loop, structurally recursive on a fuel argument that
always dominates the number (so the fuel case is never the one used). -/
def natDigitsGo : Nat → Nat → List Char
  | 0, n => [digitChar n]
  | fuel + 1, n =>
      if n < 10 then [digitChar n]
      else natDigitsGo fuel (n / 10) ++ [digitChar (n % 10)]

/-- Decimal digit characters of a natural number, most significant first. -/
def natDigits (n : Nat) : List Char :=
  natDigitsGo n n

/-- JavaScript rendering of a nonnegative integer. -/
def natStr (n : Nat) : String :=
  (natDigits n).asString

/-- JavaScript rendering of an integer (array elements in this program). -/
def intStr : Int → String
  | Int.ofNat n => natStr n
  | Int.negSucc n => "-" ++ natStr (n + 1)

/-- The simulator's `arr.join(', ')` on the working integer array. -/
def joinArr (l : List Int) : String :=
  joinSep ", " (l.map intStr)

/-- The rendered output text `'[' + arr.join(', ') + ']'`. -/
def renderArr (l : List Int) : String :=
  "[" ++ joinArr l ++ "]"

/-! ## The array-initialization regex

The simulator locates the array with
`/(?:let|var|const)\s+([a-zA-Z0-9_]+)\s*=\s*(\[.*\])/` applied to the joined
source text and takes the first (leftmost) match.  The pattern is
deterministic except for the greedy `.*`, which together with the following
`\]` matches up to the last `]` on the same line.
-/

/-- The alternation `(?:let|var|const)` tried at the current position;
returns the consumed keyword and the remaining characters. -/
def matchKeywordAt (cs : List Char) : Option (List Char × List Char) :=
  if cs.take 3 = ['l', 'e', 't'] then some (['l', 'e', 't'], cs.drop 3)
  else if cs.take 3 = ['v', 'a', 'r'] then some (['v', 'a', 'r'], cs.drop 3)
  else if cs.take 5 = ['c', 'o', 'n', 's', 't'] then some (['c', 'o', 'n', 's', 't'], cs.drop 5)
  else none

/-- Index of the last occurrence of `c` in `cs`, if any. -/
def lastIdxOf (c : Char) (cs : List Char) : Option Nat :=
  match cs.reverse.findIdx? (· = c) with
  | some r => some (cs.length - 1 - r)
  | none => none

/-- Attempt the whole pattern at the current position; on success return
(whole match, capture group 1 = name, capture group 2 = bracket literal). -/
def matchAt (cs : List Char) : Option (List Char × List Char × List Char) :=
  match matchKeywordAt cs with
  | none => none
  | some (kw, r1) =>
    let ws1 := r1.takeWhile isSpaceChar
    if ws1.isEmpty then none
    else
      let r2 := r1.drop ws1.length
      let name := r2.takeWhile isWordChar
      if name.isEmpty then none
      else
        let r3 := r2.drop name.length
        let ws2 := r3.takeWhile isSpaceChar
        match r3.drop ws2.length with
        | '=' :: r5 =>
          let ws3 := r5.takeWhile isSpaceChar
          (match r5.drop ws3.length with
           | '[' :: r7 =>
             let seg := r7.takeWhile isDotChar
             (match lastIdxOf ']' seg with
              | none => none
              | some k =>
                let lit := '[' :: seg.take (k + 1)
                some (kw ++ ws1 ++ name ++ ws2 ++ ['='] ++ ws3 ++ lit, name, lit))
           | _ => none)
        | _ => none

/-- Scan for the leftmost match, as `String.prototype.match` does. -/
def scanMatch : List Char → Option (List Char × List Char × List Char)
  | [] => none
  | c :: rest =>
    match matchAt (c :: rest) with
    | some r => some r
    | none => scanMatch rest

/-- `codeText.match(arrInitRegex)` restricted to the three pieces the
simulator uses: the whole match, the array name, and the array literal. -/
def matchArrInit (codeText : String) : Option (String × String × String) :=
  match scanMatch codeText.data with
  | some (w, nm, lit) => some (w.asString, nm.asString, lit.asString)
  | none => none

/-! ## The expression evaluator, restricted to integer array literals

`BubbleSortSimulator.evaluate` is only ever called on capture group 2 of the
regex: a bracketed array literal.  Dynamic JavaScript code execution
(`new Function`) cannot be embedded in general; the evaluator is modelled on
the fragment actually reachable here, bracketed comma-separated integer
literals with arbitrary surrounding whitespace, yielding `none` on anything
else (in the source a `null`/thrown evaluation makes the whole run throw).
Floating-point elements are outside the model; every array in the supported
examples is an integer array.
-/

/-- Drop leading whitespace. -/
def skipWs (cs : List Char) : List Char :=
  cs.dropWhile isSpaceChar

/-- Numeric value of a decimal digit character. -/
def digitVal (c : Char) : Nat :=
  c.toNat - 48

/-- Consume a maximal run of decimal digits, accumulating their value. -/
def parseDigits (acc : Nat) : List Char → Nat × List Char
  | [] => (acc, [])
  | c :: cs =>
      if c.isDigit then parseDigits (acc * 10 + digitVal c) cs
      else (acc, c :: cs)

/-- Consume an optionally negated decimal integer. -/
def parseIntChars : List Char → Option (Int × List Char)
  | [] => none
  | c :: cs =>
      if c = '-' then
        match cs with
        | [] => none
        | c2 :: _ =>
            if c2.isDigit then
              let p := parseDigits 0 cs
              some (-(p.1 : Int), p.2)
            else none
      else if c.isDigit then
        let p := parseDigits 0 (c :: cs)
        some ((p.1 : Int), p.2)
      else none

/-- Parse one comma-separated element: whitespace, an integer, whitespace. -/
def parseElem (cs : List Char) : Option Int :=
  match parseIntChars (skipWs cs) with
  | some (v, rest) => if skipWs rest = [] then some v else none
  | none => none

/-- Split a character list at every comma. -/
def splitComma : List Char → List (List Char)
  | [] => [[]]
  | c :: cs =>
      if c = ',' then [] :: splitComma cs
      else
        match splitComma cs with
        | p :: ps => (c :: p) :: ps
        | [] => [[c]]

/-- Character-level body of the evaluator on a bracketed literal. -/
def evalArrayChars : List Char → Option (List Int)
  | [] => none
  | c :: rest =>
      if c = '[' then
        if rest.getLast? = some ']' then
          let interior := rest.dropLast
          if interior.all isSpaceChar then some []
          else (splitComma interior).mapM parseElem
        else none
      else none

/-- The evaluator applied to the matched array literal: the value of a
bracketed integer-array literal, or `none` when evaluation fails. -/
def evalArrayLit (lit : String) : Option (List Int) :=
  evalArrayChars lit.data

/-! ## Data model -/

/-- A scope value: the simulator only ever stores numbers (`n`, `i`, `j`)
and integer arrays (the named array and `sortedArray`). -/
inductive Value where
  | num (v : Int)
  | arr (vs : List Int)
deriving DecidableEq, Repr

/-- `ExecutionStep` from `src/types.ts`.  `vars` (the source field is
named `variables`, a reserved word in Lean) is the deep-copied
scope snapshot; JavaScript objects preserve insertion order, so the
snapshot is an insertion-ordered association list. -/
structure ExecutionStep where
  lineNumber : Nat
  vars : List (String × Value)
  description : String
  output : Option (List String)
deriving DecidableEq, Repr

/-- A default step used only as the fall-back of positional lookups. -/
def dummyStep : ExecutionStep :=
  { lineNumber := 0, vars := [], description := "", output := none }

/-- Assignment `this.variables[k] = v` on a JavaScript object: replace the
value in place when the key exists, otherwise append the new binding. -/
def setVar (vars : List (String × Value)) (k : String) (v : Value) :
    List (String × Value) :=
  if vars.any (fun p => p.1 = k) then
    vars.map (fun p => if p.1 = k then (k, v) else p)
  else vars ++ [(k, v)]

/-- Read a variable from a scope snapshot. -/
def lookupVar (vars : List (String × Value)) (k : String) : Option Value :=
  (vars.find? (fun p => p.1 = k)).map (·.2)

/-- The mutable fields of `BubbleSortSimulator` (`vars` models the
field `variables`, plus the `run`-local
working array `arr`), threaded explicitly. -/
structure SimState where
  trace : List ExecutionStep
  vars : List (String × Value)
  output : List String
  currentLine : Nat
  arr : List Int
deriving DecidableEq, Repr

/-- `BubbleSortSimulator.logStep`: record a step holding a snapshot of the
scope and the pending output, then clear the pending output.  The source
guards the line update with JavaScript truthiness (`if (lineNumber)`),
hence the `line ≠ 0` test; every call site passes a positive line. -/
def logStep (st : SimState) (description : String) (line : Nat) : SimState :=
  let cur := if line ≠ 0 then line else st.currentLine
  { st with
    trace := st.trace ++
      [{ lineNumber := cur
         vars := st.vars
         description := description
         output := if st.output.length > 0 then some st.output else none }]
    output := []
    currentLine := cur }

/-! ## The simulator loops -/

/-- The body of the inner `for (let j = 0; j < n - i - 1; j++)` loop. -/
def innerBody (codeLines : List String) (arrName : String) (innerLoopLine : Nat)
    (st : SimState) (j : Nat) : SimState :=
  let st1 := { st with vars := setVar st.vars "j" (Value.num j) }
  let st2 := logStep st1 ("Inner loop starts iteration. 'j' is now " ++ natStr j ++ ".")
    innerLoopLine
  let ifLine := findLine codeLines "if (arr[j]" 0
  let val1 := st2.arr.getD j 0
  let val2 := st2.arr.getD (j + 1) 0
  let st3 := logStep st2
    ("Comparing " ++ arrName ++ "[" ++ natStr j ++ "] (" ++ intStr val1 ++ ") with " ++
      arrName ++ "[" ++ natStr (j + 1) ++ "] (" ++ intStr val2 ++ ").") ifLine
  if val1 > val2 then
    let swapLine := findLine codeLines ("[" ++ arrName ++ "[j]") 0
    let st4 := logStep st3
      ("Condition true (" ++ intStr val1 ++ " > " ++ intStr val2 ++ "). Swapping elements.")
      swapLine
    let newArr := (st4.arr.set j val2).set (j + 1) val1
    let st5 := { st4 with arr := newArr, vars := setVar st4.vars arrName (Value.arr newArr) }
    logStep st5 ("Array is now [" ++ joinArr newArr ++ "].") swapLine
  else st3

/-- The body of the outer `for (let i = 0; i < n; i++)` loop. -/
def outerBody (codeLines : List String) (arrName : String) (n : Nat) (outerLoopLine : Nat)
    (st : SimState) (i : Nat) : SimState :=
  let st1 := { st with vars := setVar st.vars "i" (Value.num i) }
  let st2 := logStep st1 ("Outer loop starts iteration. 'i' is now " ++ natStr i ++ ".")
    outerLoopLine
  let innerLoopLine := findLine codeLines "for (let j" 0
  (List.range (n - i - 1)).foldl (innerBody codeLines arrName innerLoopLine) st2

/-- The simulator state right before the outer loop: the fresh state of the
constructor, the array binding with its "array initialized" step, the `n`
binding with its step, and the working copy `const arr = [...arrValue]`. -/
def preLoopState (codeLines : List String) (matched arrName : String)
    (arrValue : List Int) : SimState :=
  let n := arrValue.length
  let st0 : SimState := { trace := [], vars := [], output := [], currentLine := 1, arr := [] }
  let st1 := { st0 with vars := setVar st0.vars arrName (Value.arr arrValue) }
  let st2 := logStep st1
    ("Initialize array '" ++ arrName ++ "' with " ++ natStr arrValue.length ++ " elements.")
    (findLine codeLines matched 0)
  let st3 := logStep { st2 with vars := setVar st2.vars "n" (Value.num n) }
    ("Initialize 'n' with the length of the array, which is " ++ natStr n ++ ".")
    (findLine codeLines "n =" 0)
  { st3 with arr := arrValue }

/-- The simulator state after the two initialization steps and both loops,
given the pieces extracted by the regex. -/
def afterLoops (codeLines : List String) (matched arrName : String)
    (arrValue : List Int) : SimState :=
  (List.range arrValue.length).foldl
    (outerBody codeLines arrName arrValue.length (findLine codeLines "for (let i" 0))
    (preLoopState codeLines matched arrName arrValue)

/-- The tail of `BubbleSortSimulator.run` after both loops: the final
assignment step and the output step. -/
def runSim (codeLines : List String) (matched arrName : String)
    (arrValue : List Int) : List ExecutionStep :=
  let st5 := afterLoops codeLines matched arrName arrValue
  let st6 := logStep { st5 with vars := setVar st5.vars "sortedArray" (Value.arr st5.arr) }
    "Sorting complete. Final array assigned to 'sortedArray'."
    (findLine codeLines "sortedArray =" 0)
  let st7 := logStep { st6 with output := [renderArr st6.arr] }
    "Printing the final sorted array to the console."
    (findLine codeLines "console.log" 0)
  st7.trace

/-- `BubbleSortSimulator.run` (together with the constructor): split the
source into lines, re-join them, match the array-initialization regex,
evaluate the literal, and replay the bubble sort.  A thrown exception is an
`Except.error`. -/
def run (code : String) : Except String (List ExecutionStep) :=
  let codeLines := splitLines code
  let codeText := joinSep "\n" codeLines
  match matchArrInit codeText with
  | none => Except.error "Could not find an array initialization like 'let myArray = [...]'. The simulator is not generic enough for this code."
  | some (matched, arrName, arrLit) =>
    match evalArrayLit arrLit with
    | none => Except.error "Could not evaluate the matched array literal."
    | some arrValue => Except.ok (runSim codeLines matched arrName arrValue)

/-- `Language` from `src/types.ts` (the source name collides with a
Mathlib root declaration). -/
inductive Lang where
  | python
  | javascript
deriving DecidableEq, Repr

/-- `generateExecutionTrace`: the public entry point.  The artificial
500 ms delay is latency only and has no bearing on the returned value. -/
def generateExecutionTrace (code : String) (language : Lang) :
    Except String (List ExecutionStep) :=
  if language = Lang.python then
    Except.error "This non-AI demonstrator currently only supports the JavaScript bubble sort example. Please switch languages."
  else if !strIncludes code "bubbleSort" || !strIncludes code "arr.length" then
    Except.error "The current non-AI simulator is a demonstration and only understands the default bubble sort code."
  else
    match run code with
    | Except.ok trace => Except.ok trace
    | Except.error msg => Except.error ("Simulation Failed: " ++ msg)

/-- The trace of a successful run (used to state concrete witnesses). -/
def runD (code : String) : List ExecutionStep :=
  match run code with
  | Except.ok trace => trace
  | Except.error _ => []

/-! ## Pure mirror of the working-array evolution

The `arr` component of the simulator state evolves independently of the
logging; these definitions capture exactly that evolution so that the
sorting proof can be carried out on them.
-/

/-- The destructuring swap `[arr[j], arr[j + 1]] = [arr[j + 1], arr[j]]`. -/
def swapAdj (l : List Int) (j : Nat) : List Int :=
  (l.set j (l.getD (j + 1) 0)).set (j + 1) (l.getD j 0)

/-- One inner-loop iteration's effect on the working array. -/
def cmpSwap (l : List Int) (j : Nat) : List Int :=
  if l.getD j 0 > l.getD (j + 1) 0 then swapAdj l j else l

/-- One full inner loop (`c` iterations). -/
def innerPassArr (l : List Int) (c : Nat) : List Int :=
  (List.range c).foldl cmpSwap l

/-- The whole nested loop on an array whose recorded length is `n`. -/
def bubbleAux (n : Nat) (l : List Int) : List Int :=
  (List.range n).foldl (fun a i => innerPassArr a (n - i - 1)) l

/-- Structural reformulation of one bounded bubble pass, used only inside
the sortedness proof. -/
def bpassN : Nat → List Int → List Int
  | 0, l => l
  | _ + 1, [] => []
  | _ + 1, [a] => [a]
  | c + 1, a :: b :: rest =>
      if a > b then b :: bpassN c (a :: rest) else a :: bpassN c (b :: rest)

/-- Number of swaps performed by the inner loop along the index list `js`. -/
def swapsInner (a : List Int) : List Nat → Nat
  | [] => 0
  | j :: js =>
      (if a.getD j 0 > a.getD (j + 1) 0 then 1 else 0) + swapsInner (cmpSwap a j) js

/-- Number of swaps performed by the outer loop along the index list `is`. -/
def swapsOuter (n : Nat) (a : List Int) : List Nat → Nat
  | [] => 0
  | i :: is =>
      swapsInner a (List.range (n - i - 1)) + swapsOuter n (innerPassArr a (n - i - 1)) is

/-- Total number of swaps the simulated bubble sort performs on `a`. -/
def totalSwaps (a : List Int) : Nat :=
  swapsOuter a.length a (List.range a.length)

/-! ## The working array through the loops -/

theorem logStep_arr (st : SimState) (d : String) (l : Nat) :
    (logStep st d l).arr = st.arr := rfl

theorem logStep_vars (st : SimState) (d : String) (l : Nat) :
    (logStep st d l).vars = st.vars := rfl

theorem logStep_output (st : SimState) (d : String) (l : Nat) :
    (logStep st d l).output = [] := rfl

theorem innerBody_arr (cl : List String) (an : String) (il : Nat) (st : SimState) (j : Nat) :
    (innerBody cl an il st j).arr = cmpSwap st.arr j := by
  simp only [innerBody, cmpSwap, swapAdj, logStep]
  split <;> rfl

theorem foldInner_arr (cl : List String) (an : String) (il : Nat) :
    ∀ (js : List Nat) (st : SimState),
      (js.foldl (innerBody cl an il) st).arr = js.foldl cmpSwap st.arr := by
  intro js
  induction js with
  | nil => intro st; rfl
  | cons j js ih =>
      intro st
      simp only [List.foldl_cons, ih, innerBody_arr]

theorem outerBody_arr (cl : List String) (an : String) (n ol : Nat) (st : SimState) (i : Nat) :
    (outerBody cl an n ol st i).arr = innerPassArr st.arr (n - i - 1) := by
  simp only [outerBody, innerPassArr, foldInner_arr]
  rfl

theorem foldOuter_arr (cl : List String) (an : String) (n ol : Nat) :
    ∀ (is : List Nat) (st : SimState),
      (is.foldl (outerBody cl an n ol) st).arr =
        is.foldl (fun a i => innerPassArr a (n - i - 1)) st.arr := by
  intro is
  induction is with
  | nil => intro st; rfl
  | cons i is ih =>
      intro st
      simp only [List.foldl_cons, ih, outerBody_arr]

theorem afterLoops_arr (cl : List String) (m an : String) (a : List Int) :
    (afterLoops cl m an a).arr = bubbleAux a.length a := by
  simp only [afterLoops, bubbleAux, foldOuter_arr]
  rfl

/-! ## Bubble sort correctness -/

theorem cmpSwap_cons_succ (x : Int) (t : List Int) (j : Nat) :
    cmpSwap (x :: t) (j + 1) = x :: cmpSwap t j := by
  simp only [cmpSwap, swapAdj, List.getD_cons_succ, List.set_cons_succ]
  split <;> rfl

theorem foldl_cmpSwap_map_succ (js : List Nat) :
    ∀ (x : Int) (t : List Int),
      (js.map Nat.succ).foldl cmpSwap (x :: t) = x :: js.foldl cmpSwap t := by
  induction js with
  | nil => intro x t; rfl
  | cons j js ih =>
      intro x t
      simp only [List.map_cons, List.foldl_cons]
      rw [show j.succ = j + 1 from rfl, cmpSwap_cons_succ, ih]

theorem cmpSwap_zero (a b : Int) (t : List Int) :
    cmpSwap (a :: b :: t) 0 = if a > b then b :: a :: t else a :: b :: t := by
  simp only [cmpSwap, swapAdj]
  rfl

theorem innerPassArr_eq_bpassN :
    ∀ (c : Nat) (l : List Int), c < l.length → innerPassArr l c = bpassN c l := by
  intro c
  induction c with
  | zero => intro l _; rfl
  | succ c ih =>
      intro l hc
      match l, hc with
      | a :: b :: t, hc =>
        have hct : c < t.length + 1 := by simp at hc; omega
        simp only [innerPassArr, List.range_succ_eq_map, List.foldl_cons, cmpSwap_zero, bpassN]
        by_cases hab : a > b
        · rw [if_pos hab, if_pos hab, foldl_cmpSwap_map_succ]
          have := ih (a :: t) (by simpa using hct)
          simp only [innerPassArr] at this
          rw [this]
        · rw [if_neg hab, if_neg hab, foldl_cmpSwap_map_succ]
          have := ih (b :: t) (by simpa using hct)
          simp only [innerPassArr] at this
          rw [this]

theorem bpassN_perm : ∀ (c : Nat) (l : List Int), (bpassN c l).Perm l := by
  intro c
  induction c with
  | zero => intro l; exact List.Perm.refl l
  | succ c ih =>
      intro l
      match l with
      | [] => exact List.Perm.refl []
      | [a] => exact List.Perm.refl [a]
      | a :: b :: t =>
          simp only [bpassN]
          split
          · exact ((ih (a :: t)).cons b).trans (List.Perm.swap a b t)
          · exact (ih (b :: t)).cons a

theorem bpassN_length (c : Nat) (l : List Int) : (bpassN c l).length = l.length :=
  (bpassN_perm c l).length_eq

theorem bpassN_append :
    ∀ (c : Nat) (l r : List Int), c + 1 ≤ l.length → bpassN c (l ++ r) = bpassN c l ++ r := by
  intro c
  induction c with
  | zero => intro l r _; rfl
  | succ c ih =>
      intro l r hl
      match l, hl with
      | [a], hl => simp at hl
      | a :: b :: t, hl =>
          have hlt : c + 1 ≤ t.length + 1 := by simp at hl; omega
          simp only [List.cons_append, bpassN]
          split
          · have := ih (a :: t) r (by simpa using hlt)
            simp only [List.cons_append] at this
            show b :: bpassN c (a :: (t ++ r)) = b :: bpassN c (a :: t) ++ r
            rw [this, List.cons_append]
          · have := ih (b :: t) r (by simpa using hlt)
            simp only [List.cons_append] at this
            show a :: bpassN c (b :: (t ++ r)) = a :: bpassN c (b :: t) ++ r
            rw [this, List.cons_append]

theorem bpassN_max :
    ∀ (c : Nat) (l : List Int), l.length = c + 1 →
      ∃ l' m, bpassN c l = l' ++ [m] ∧ ∀ x ∈ l', x ≤ m := by
  intro c
  induction c with
  | zero =>
      intro l hl
      match l, hl with
      | [a], _ => exact ⟨[], a, rfl, by simp⟩
  | succ c ih =>
      intro l hl
      match l, hl with
      | a :: b :: t, hl =>
          have ht : t.length = c := by simpa using hl
          simp only [bpassN]
          by_cases hab : a > b
          · obtain ⟨l', m, heq, hle⟩ := ih (a :: t) (by simp [ht])
            have ham : a ≤ m := by
              have : a ∈ l' ++ [m] := heq ▸ (bpassN_perm c (a :: t)).symm.mem_iff.mp (by simp)
              rcases List.mem_append.mp this with h | h
              · exact hle a h
              · simp at h; omega
            refine ⟨b :: l', m, by simp [hab, heq], ?_⟩
            intro x hx
            rcases List.mem_cons.mp hx with rfl | h
            · omega
            · exact hle x h
          · obtain ⟨l', m, heq, hle⟩ := ih (b :: t) (by simp [ht])
            have hbm : b ≤ m := by
              have : b ∈ l' ++ [m] := heq ▸ (bpassN_perm c (b :: t)).symm.mem_iff.mp (by simp)
              rcases List.mem_append.mp this with h | h
              · exact hle b h
              · simp at h; omega
            refine ⟨a :: l', m, by simp [hab, heq], ?_⟩
            intro x hx
            rcases List.mem_cons.mp hx with rfl | h
            · omega
            · exact hle x h

theorem bubble_invariant (a : List Int) :
    ∀ m, m ≤ a.length →
      ∃ front back,
        (List.range m).foldl (fun x i => innerPassArr x (a.length - i - 1)) a = front ++ back ∧
        front.length = a.length - m ∧
        back.length = m ∧
        List.Sorted (· ≤ ·) back ∧
        (∀ x ∈ front, ∀ y ∈ back, x ≤ y) ∧
        (front ++ back).Perm a := by
  intro m
  induction m with
  | zero =>
      intro _
      exact ⟨a, [], by simp, by simp, rfl, List.sorted_nil, by simp, by simp⟩
  | succ m ih =>
      intro hm
      obtain ⟨front, back, heq, hfl, hbl, hsort, hle, hperm⟩ := ih (by omega)
      rw [List.range_succ, List.foldl_append, heq]
      simp only [List.foldl_cons, List.foldl_nil]
      have hlen : (front ++ back).length = a.length := by
        rw [List.length_append, hfl, hbl]; omega
      have hcl : a.length - m - 1 < (front ++ back).length := by omega
      rw [innerPassArr_eq_bpassN _ _ hcl, bpassN_append _ _ _ (by omega)]
      obtain ⟨l', mx, hsplit, hmax⟩ := bpassN_max (a.length - m - 1) front (by omega)
      have hlplen : l'.length + 1 = front.length := by
        have := bpassN_length (a.length - m - 1) front
        rw [hsplit] at this
        simpa using this
      have hmxfront : mx ∈ front := by
        have hp : (l' ++ [mx]).Perm front := hsplit ▸ bpassN_perm (a.length - m - 1) front
        exact hp.mem_iff.mp (by simp)
      have hsubfront : ∀ x ∈ l', x ∈ front := by
        intro x hx
        have hp : (l' ++ [mx]).Perm front := hsplit ▸ bpassN_perm (a.length - m - 1) front
        exact hp.mem_iff.mp (by simp [hx])
      rw [hsplit]
      refine ⟨l', mx :: back, ?_, by omega, by simp [hbl], ?_, ?_, ?_⟩
      · rw [List.append_assoc]; rfl
      · exact List.sorted_cons.mpr ⟨fun y hy => hle mx hmxfront y hy, hsort⟩
      · intro x hx y hy
        rcases List.mem_cons.mp hy with rfl | hyb
        · exact hmax x hx
        · exact hle x (hsubfront x hx) y hyb
      · have heq2 : l' ++ mx :: back = (l' ++ [mx]) ++ back := by
          rw [List.append_assoc, List.singleton_append]
        have hp2 : ((l' ++ [mx]) ++ back).Perm (front ++ back) :=
          (hsplit ▸ bpassN_perm (a.length - m - 1) front).append_right back
        rw [heq2]
        exact hp2.trans hperm

theorem bubbleAux_sorted_perm (a : List Int) :
    List.Sorted (· ≤ ·) (bubbleAux a.length a) ∧ (bubbleAux a.length a).Perm a := by
  obtain ⟨front, back, heq, hfl, _, hsort, _, hperm⟩ :=
    bubble_invariant a a.length (le_refl _)
  have hfe : front = [] := List.length_eq_zero.mp (by omega)
  subst hfe
  simp only [List.nil_append] at heq hperm
  rw [bubbleAux, heq]
  exact ⟨hsort, hperm⟩

/-! ## Structure of the produced trace -/

theorem findLine_pos (cl : List String) (s : String) (k : Nat) : 0 < findLine cl s k := by
  unfold findLine
  cases findIndexFrom cl s k <;> simp

theorem trace_extends_trans {s1 s2 s3 : SimState}
    (h1 : ∃ δ, s2.trace = s1.trace ++ δ) (h2 : ∃ δ, s3.trace = s2.trace ++ δ) :
    ∃ δ, s3.trace = s1.trace ++ δ := by
  obtain ⟨d1, e1⟩ := h1
  obtain ⟨d2, e2⟩ := h2
  exact ⟨d1 ++ d2, by rw [e2, e1, List.append_assoc]⟩

theorem logStep_extends {s1 s2 : SimState} (h : ∃ δ, s2.trace = s1.trace ++ δ)
    (d : String) (l : Nat) : ∃ δ, (logStep s2 d l).trace = s1.trace ++ δ :=
  trace_extends_trans h ⟨_, rfl⟩

theorem innerBody_trace (cl : List String) (an : String) (il : Nat) (st : SimState) (j : Nat) :
    ∃ δ, (innerBody cl an il st j).trace = st.trace ++ δ := by
  simp only [innerBody]
  split
  · exact ⟨_, by simp only [logStep, List.append_assoc]; rfl⟩
  · exact ⟨_, by simp only [logStep, List.append_assoc]; rfl⟩

theorem foldl_innerBody_trace (cl : List String) (an : String) (il : Nat) :
    ∀ (js : List Nat) (st : SimState),
      ∃ δ, (js.foldl (innerBody cl an il) st).trace = st.trace ++ δ := by
  intro js
  induction js with
  | nil => intro st; exact ⟨[], by simp⟩
  | cons j js ih =>
      intro st
      exact trace_extends_trans (innerBody_trace cl an il st j) (ih (innerBody cl an il st j))

theorem outerBody_trace (cl : List String) (an : String) (n ol : Nat) (st : SimState) (i : Nat) :
    ∃ δ, (outerBody cl an n ol st i).trace = st.trace ++ δ := by
  simp only [outerBody]
  exact trace_extends_trans (⟨_, rfl⟩ : ∃ δ, (logStep { st with vars := setVar st.vars "i" (Value.num i) } ("Outer loop starts iteration. 'i' is now " ++ natStr i ++ ".") ol).trace = st.trace ++ δ) (foldl_innerBody_trace cl an (findLine cl "for (let j" 0) _ _)

theorem foldl_outerBody_trace (cl : List String) (an : String) (n ol : Nat) :
    ∀ (is : List Nat) (st : SimState),
      ∃ δ, (is.foldl (outerBody cl an n ol) st).trace = st.trace ++ δ := by
  intro is
  induction is with
  | nil => intro st; exact ⟨[], by simp⟩
  | cons i is ih =>
      intro st
      exact trace_extends_trans (outerBody_trace cl an n ol st i) (ih (outerBody cl an n ol st i))

theorem innerBody_output (cl : List String) (an : String) (il : Nat) (st : SimState) (j : Nat) :
    (innerBody cl an il st j).output = [] := by
  simp only [innerBody]
  split <;> rfl

theorem foldl_innerBody_output (cl : List String) (an : String) (il : Nat) :
    ∀ (js : List Nat) (st : SimState), st.output = [] →
      (js.foldl (innerBody cl an il) st).output = [] := by
  intro js
  induction js with
  | nil => intro st h; exact h
  | cons j js ih =>
      intro st _
      exact ih _ (innerBody_output cl an il st j)

theorem outerBody_output (cl : List String) (an : String) (n ol : Nat) (st : SimState) (i : Nat) :
    (outerBody cl an n ol st i).output = [] := by
  simp only [outerBody]
  exact foldl_innerBody_output _ _ _ _ _ (logStep_output _ _ _)

theorem foldl_outerBody_output (cl : List String) (an : String) (n ol : Nat) :
    ∀ (is : List Nat) (st : SimState), st.output = [] →
      (is.foldl (outerBody cl an n ol) st).output = [] := by
  intro is
  induction is with
  | nil => intro st h; exact h
  | cons i is ih =>
      intro st _
      exact ih _ (outerBody_output cl an n ol st i)

theorem afterLoops_output (cl : List String) (m an : String) (a : List Int) :
    (afterLoops cl m an a).output = [] := by
  simp only [afterLoops]
  exact foldl_outerBody_output _ _ _ _ _ _ rfl

/-! ## Scope lookup -/

theorem find?_setVar_map (k : String) (v : Value) :
    ∀ vars : List (String × Value),
      (vars.map (fun p => if p.1 = k then (k, v) else p)).find? (fun p => p.1 = k) =
        ((vars.find? (fun p => p.1 = k)).map (fun _ => (k, v))) := by
  intro vars
  induction vars with
  | nil => rfl
  | cons p ps ih =>
      simp only [List.map_cons]
      by_cases hp : p.1 = k
      · rw [if_pos hp, List.find?_cons_of_pos _ (by simp), List.find?_cons_of_pos _ (by simp [hp])]
        rfl
      · rw [if_neg hp, List.find?_cons_of_neg _ (by simp [hp]),
          List.find?_cons_of_neg _ (by simp [hp])]
        exact ih

theorem find?_append_single (k : String) (v : Value) :
    ∀ vars : List (String × Value), vars.find? (fun p => p.1 = k) = none →
      (vars ++ [(k, v)]).find? (fun p => p.1 = k) = some (k, v) := by
  intro vars
  induction vars with
  | nil => intro _; exact List.find?_cons_of_pos _ (by simp)
  | cons p ps ih =>
      intro h
      by_cases hp : p.1 = k
      · rw [List.find?_cons_of_pos _ (by simp [hp])] at h
        cases h
      · rw [List.find?_cons_of_neg _ (by simp [hp])] at h
        rw [List.cons_append, List.find?_cons_of_neg _ (by simp [hp])]
        exact ih h

theorem any_eq_true_of_find? (k : String) :
    ∀ vars : List (String × Value),
      vars.any (fun p => p.1 = k) = true ↔ (vars.find? (fun p => p.1 = k)).isSome := by
  intro vars
  induction vars with
  | nil => simp [List.find?]
  | cons p ps ih =>
      by_cases hp : p.1 = k
      · rw [List.any_cons, List.find?_cons_of_pos _ (by simp [hp])]
        simp [hp]
      · rw [List.any_cons, List.find?_cons_of_neg _ (by simpa using hp)]
        simp only [hp, decide_False, Bool.false_or]
        exact ih

theorem lookupVar_setVar_self (vars : List (String × Value)) (k : String) (v : Value) :
    lookupVar (setVar vars k v) k = some v := by
  unfold lookupVar setVar
  by_cases h : vars.any (fun p => p.1 = k)
  · rw [if_pos h, find?_setVar_map]
    obtain ⟨q, hq⟩ := Option.isSome_iff_exists.mp ((any_eq_true_of_find? k vars).mp h)
    rw [hq]
    rfl
  · rw [if_neg h]
    have hnone : vars.find? (fun p => p.1 = k) = none := by
      cases hfind : vars.find? (fun p => p.1 = k) with
      | none => rfl
      | some q =>
          exact absurd ((any_eq_true_of_find? k vars).mpr (by simp [hfind])) h
    rw [find?_append_single k v vars hnone]
    rfl

/-- Every key of `setVar vars k v` is `k` or a key of `vars`. -/
theorem setVar_keys (vars : List (String × Value)) (k : String) (v : Value) :
    ∀ q ∈ setVar vars k v, q.1 = k ∨ ∃ p ∈ vars, q.1 = p.1 := by
  intro q hq
  unfold setVar at hq
  split at hq
  · obtain ⟨p, hp, hpe⟩ := List.mem_map.mp hq
    by_cases hpk : p.1 = k
    · rw [if_pos hpk] at hpe
      left
      rw [← hpe]
    · rw [if_neg hpk] at hpe
      right
      exact ⟨p, hp, by rw [← hpe]⟩
  · rcases List.mem_append.mp hq with h | h
    · right; exact ⟨q, h, rfl⟩
    · left
      simp only [List.mem_singleton] at h
      rw [h]

theorem preLoopState_trace (cl : List String) (m an : String) (a : List Int) :
    ∃ s0 s1,
      (preLoopState cl m an a).trace = [s0, s1] ∧
      s0.vars = setVar [] an (Value.arr a) ∧
      s1.vars = setVar (setVar [] an (Value.arr a)) "n" (Value.num a.length) ∧
      s0.description = "Initialize array '" ++ an ++ "' with " ++ natStr a.length ++ " elements." ∧
      s1.description = "Initialize 'n' with the length of the array, which is " ++ natStr a.length ++ "." :=
  ⟨_, _, rfl, rfl, rfl, rfl, rfl⟩

theorem afterLoops_trace (cl : List String) (m an : String) (a : List Int) :
    ∃ s0 s1 mid,
      (afterLoops cl m an a).trace = s0 :: s1 :: mid ∧
      s0.vars = setVar [] an (Value.arr a) ∧
      s1.vars = setVar (setVar [] an (Value.arr a)) "n" (Value.num a.length) ∧
      s0.description = "Initialize array '" ++ an ++ "' with " ++ natStr a.length ++ " elements." ∧
      s1.description = "Initialize 'n' with the length of the array, which is " ++ natStr a.length ++ "." := by
  obtain ⟨s0, s1, htr, h0, h1, hd0, hd1⟩ := preLoopState_trace cl m an a
  obtain ⟨δ, hδ⟩ := foldl_outerBody_trace cl an a.length (findLine cl "for (let i" 0)
    (List.range a.length) (preLoopState cl m an a)
  refine ⟨s0, s1, δ, ?_, h0, h1, hd0, hd1⟩
  unfold afterLoops
  rw [hδ, htr]
  rfl

/-- Shape of the whole produced trace: the two initialization steps, the
loop steps, and the final "sorting complete" and output steps, with the
scope contents the claims are about. -/
theorem runSim_struct (cl : List String) (m an : String) (a : List Int) :
    ∃ s0 s1 mid s2 s3,
      runSim cl m an a = s0 :: s1 :: (mid ++ [s2, s3]) ∧
      s0.vars = setVar [] an (Value.arr a) ∧
      s1.vars = setVar (setVar [] an (Value.arr a)) "n" (Value.num a.length) ∧
      s2.vars = setVar (afterLoops cl m an a).vars "sortedArray"
        (Value.arr (bubbleAux a.length a)) ∧
      s2.description = "Sorting complete. Final array assigned to 'sortedArray'." ∧
      s2.output = none ∧
      s3.vars = s2.vars ∧
      s3.description = "Printing the final sorted array to the console." ∧
      s3.output = some [renderArr (bubbleAux a.length a)] := by
  obtain ⟨s0, s1, mid0, htr, h0, h1, _, _⟩ := afterLoops_trace cl m an a
  have harr := afterLoops_arr cl m an a
  have hout := afterLoops_output cl m an a
  have hrun : ∃ sc so,
      runSim cl m an a = ((afterLoops cl m an a).trace ++ [sc]) ++ [so] ∧
      sc.vars = setVar (afterLoops cl m an a).vars "sortedArray"
        (Value.arr (afterLoops cl m an a).arr) ∧
      sc.description = "Sorting complete. Final array assigned to 'sortedArray'." ∧
      sc.output = (if (afterLoops cl m an a).output.length > 0
        then some (afterLoops cl m an a).output else none) ∧
      so.vars = sc.vars ∧
      so.description = "Printing the final sorted array to the console." ∧
      so.output = some [renderArr (afterLoops cl m an a).arr] :=
    ⟨_, _, rfl, rfl, rfl, rfl, rfl, rfl, rfl⟩
  obtain ⟨sc, so, hr, hv2, hd2, ho2, hv3, hd3, ho3⟩ := hrun
  refine ⟨s0, s1, mid0, sc, so, ?_, h0, h1, ?_, hd2, ?_, hv3, hd3, ?_⟩
  · rw [hr, htr]
    simp [List.append_assoc]
  · rw [hv2, harr]
  · rw [ho2, hout]
    rfl
  · rw [ho3, harr]

/-- Unpack a successful `run`: the regex matched, the literal evaluated,
and the trace is the simulated replay. -/
theorem run_ok_elim {code : String} {tr : List ExecutionStep} (h : run code = Except.ok tr) :
    ∃ m nm lit a,
      matchArrInit (joinSep "\n" (splitLines code)) = some (m, nm, lit) ∧
      evalArrayLit lit = some a ∧
      tr = runSim (splitLines code) m nm a := by
  simp only [run] at h
  split at h
  · cases h
  · rename_i m nm lit heq
    split at h
    · cases h
    · rename_i a hea
      exact ⟨m, nm, lit, a, heq, hea, (Except.ok.inj h).symm⟩

/-! ## Counting the emitted steps -/

theorem innerBody_trace_length (cl : List String) (an : String) (il : Nat)
    (st : SimState) (j : Nat) :
    (innerBody cl an il st j).trace.length =
      st.trace.length + 2 + (if st.arr.getD j 0 > st.arr.getD (j + 1) 0 then 2 else 0) := by
  simp only [innerBody]
  split
  · rename_i hgt
    have hgt' : st.arr.getD j 0 > st.arr.getD (j + 1) 0 := hgt
    rw [if_pos hgt']
    simp only [logStep, List.length_append, List.length_singleton]
  · rename_i hle
    have hle' : ¬ st.arr.getD j 0 > st.arr.getD (j + 1) 0 := hle
    rw [if_neg hle']
    simp only [logStep, List.length_append, List.length_singleton]

theorem foldl_innerBody_length (cl : List String) (an : String) (il : Nat) :
    ∀ (js : List Nat) (st : SimState),
      (js.foldl (innerBody cl an il) st).trace.length =
        st.trace.length + 2 * js.length + 2 * swapsInner st.arr js := by
  intro js
  induction js with
  | nil => intro st; simp [swapsInner]
  | cons j js ih =>
      intro st
      rw [List.foldl_cons, ih, innerBody_trace_length, innerBody_arr]
      simp only [swapsInner, List.length_cons]
      by_cases hc : st.arr.getD j 0 > st.arr.getD (j + 1) 0
      · rw [if_pos hc, if_pos hc]
        omega
      · rw [if_neg hc, if_neg hc]
        omega

theorem outerBody_trace_length (cl : List String) (an : String) (n ol : Nat)
    (st : SimState) (i : Nat) :
    (outerBody cl an n ol st i).trace.length =
      st.trace.length + 1 + 2 * (n - i - 1) +
        2 * swapsInner st.arr (List.range (n - i - 1)) := by
  simp only [outerBody]
  rw [foldl_innerBody_length]
  simp only [logStep, List.length_append, List.length_singleton, List.length_range]

theorem foldl_outerBody_length (cl : List String) (an : String) (n ol : Nat) :
    ∀ (is : List Nat) (st : SimState),
      (is.foldl (outerBody cl an n ol) st).trace.length =
        st.trace.length + (is.map (fun i => 1 + 2 * (n - i - 1))).sum +
          2 * swapsOuter n st.arr is := by
  intro is
  induction is with
  | nil => intro st; simp [swapsOuter]
  | cons i is ih =>
      intro st
      rw [List.foldl_cons, ih, outerBody_trace_length, outerBody_arr]
      simp only [swapsOuter, List.map_cons, List.sum_cons]
      omega

theorem runSim_length (cl : List String) (m an : String) (a : List Int) :
    (runSim cl m an a).length =
      2 + ((List.range a.length).map (fun i => 1 + 2 * (a.length - i - 1))).sum +
        2 * totalSwaps a + 2 := by
  simp only [runSim, logStep, List.length_append, List.length_singleton]
  simp only [afterLoops]
  rw [foldl_outerBody_length]
  have h1 : (preLoopState cl m an a).trace.length = 2 := rfl
  have h2 : (preLoopState cl m an a).arr = a := rfl
  rw [h1, h2]
  simp only [totalSwaps]

theorem map_sum_linear (n : Nat) :
    ∀ l : List Nat,
      (l.map (fun i => 1 + 2 * (n - i - 1))).sum =
        l.length + 2 * (l.map (fun i => n - i - 1)).sum := by
  intro l
  induction l with
  | nil => rfl
  | cons x xs ih =>
      simp only [List.map_cons, List.sum_cons, List.length_cons, ih]
      omega

/-! ## Variable names appearing in snapshots -/

/-- All scope keys and all snapshot keys of `st` lie in `S`. -/
def keysIn (S : List String) (st : SimState) : Prop :=
  (∀ q ∈ st.vars, q.1 ∈ S) ∧ (∀ step ∈ st.trace, ∀ q ∈ step.vars, q.1 ∈ S)

theorem setVar_keys_sub {S : List String} {vars : List (String × Value)}
    (h : ∀ q ∈ vars, q.1 ∈ S) {k : String} (hk : k ∈ S) (v : Value) :
    ∀ q ∈ setVar vars k v, q.1 ∈ S := by
  intro q hq
  rcases setVar_keys vars k v q hq with h1 | ⟨p, hp, he⟩
  · rw [h1]; exact hk
  · rw [he]; exact h p hp

theorem logStep_keys {S : List String} {st : SimState} (h : keysIn S st)
    {d : String} {l : Nat} : keysIn S (logStep st d l) := by
  obtain ⟨h1, h2⟩ := h
  refine ⟨h1, ?_⟩
  intro step hstep
  rcases List.mem_append.mp hstep with hs | hs
  · exact h2 step hs
  · simp only [List.mem_singleton] at hs
    subst hs
    exact h1

theorem innerBody_keys (cl : List String) (an : String) (il j : Nat) {S : List String}
    (hj : "j" ∈ S) (han : an ∈ S) {st : SimState} (h : keysIn S st) :
    keysIn S (innerBody cl an il st j) := by
  have hbase : keysIn S { st with vars := setVar st.vars "j" (Value.num j) } :=
    ⟨setVar_keys_sub h.1 hj _, h.2⟩
  simp only [innerBody]
  split
  · refine logStep_keys ⟨setVar_keys_sub ?_ han _, ?_⟩
    · exact (logStep_keys (logStep_keys (logStep_keys hbase))).1
    · exact (logStep_keys (logStep_keys (logStep_keys hbase))).2
  · exact logStep_keys (logStep_keys hbase)

theorem foldl_innerBody_keys (cl : List String) (an : String) (il : Nat) {S : List String}
    (hj : "j" ∈ S) (han : an ∈ S) :
    ∀ (js : List Nat) {st : SimState}, keysIn S st →
      keysIn S (js.foldl (innerBody cl an il) st) := by
  intro js
  induction js with
  | nil => intro st h; exact h
  | cons j js ih =>
      intro st h
      exact ih (innerBody_keys cl an il j hj han h)

theorem outerBody_keys (cl : List String) (an : String) (n ol i : Nat) {S : List String}
    (hi : "i" ∈ S) (hj : "j" ∈ S) (han : an ∈ S) {st : SimState} (h : keysIn S st) :
    keysIn S (outerBody cl an n ol st i) := by
  have hb : keysIn S { st with vars := setVar st.vars "i" (Value.num i) } :=
    ⟨setVar_keys_sub h.1 hi _, h.2⟩
  simp only [outerBody]
  exact foldl_innerBody_keys cl an _ hj han _ (logStep_keys hb)

theorem foldl_outerBody_keys (cl : List String) (an : String) (n ol : Nat) {S : List String}
    (hi : "i" ∈ S) (hj : "j" ∈ S) (han : an ∈ S) :
    ∀ (is : List Nat) {st : SimState}, keysIn S st →
      keysIn S (is.foldl (outerBody cl an n ol) st) := by
  intro is
  induction is with
  | nil => intro st h; exact h
  | cons i is ih =>
      intro st h
      exact ih (outerBody_keys cl an n ol i hi hj han h)

theorem preLoopState_keys (cl : List String) (m an : String) (a : List Int)
    {S : List String} (han : an ∈ S) (hn : "n" ∈ S) :
    keysIn S (preLoopState cl m an a) := by
  have hvars : ∀ q ∈ setVar (setVar [] an (Value.arr a)) "n" (Value.num a.length), q.1 ∈ S :=
    setVar_keys_sub (setVar_keys_sub (by simp) han _) hn _
  have hvars0 : ∀ q ∈ setVar [] an (Value.arr a), q.1 ∈ S :=
    setVar_keys_sub (by simp) han _
  constructor
  · intro q hq
    exact hvars q hq
  · intro step hstep
    obtain ⟨s0, s1, htr, h0v, h1v, _, _⟩ := preLoopState_trace cl m an a
    rw [htr] at hstep
    rcases List.mem_cons.mp hstep with rfl | hstep
    · rw [h0v]; exact hvars0
    · rcases List.mem_cons.mp hstep with rfl | hstep
      · rw [h1v]; exact hvars
      · cases hstep

theorem runSim_keys (cl : List String) (m an : String) (a : List Int) :
    ∀ step ∈ runSim cl m an a, ∀ q ∈ step.vars,
      q.1 ∈ [an, "n", "i", "j", "sortedArray"] := by
  have han : an ∈ [an, "n", "i", "j", "sortedArray"] := by simp
  have hn : "n" ∈ [an, "n", "i", "j", "sortedArray"] := by simp
  have hi : "i" ∈ [an, "n", "i", "j", "sortedArray"] := by simp
  have hj : "j" ∈ [an, "n", "i", "j", "sortedArray"] := by simp
  have hs : "sortedArray" ∈ [an, "n", "i", "j", "sortedArray"] := by simp
  have h5 : keysIn [an, "n", "i", "j", "sortedArray"] (afterLoops cl m an a) := by
    simp only [afterLoops]
    exact foldl_outerBody_keys cl an _ _ hi hj han _ (preLoopState_keys cl m an a han hn)
  have hrun : ∃ sc so,
      runSim cl m an a = ((afterLoops cl m an a).trace ++ [sc]) ++ [so] ∧
      sc.vars = setVar (afterLoops cl m an a).vars "sortedArray"
        (Value.arr (afterLoops cl m an a).arr) ∧
      so.vars = sc.vars :=
    ⟨_, _, rfl, rfl, rfl⟩
  obtain ⟨sc, so, hr, hv2, hv3⟩ := hrun
  intro step hstep
  rw [hr] at hstep
  rcases List.mem_append.mp hstep with hstep | hstep
  · rcases List.mem_append.mp hstep with hstep | hstep
    · exact h5.2 step hstep
    · simp only [List.mem_singleton] at hstep
      subst hstep
      rw [hv2]
      exact setVar_keys_sub h5.1 hs _
  · simp only [List.mem_singleton] at hstep
    subst hstep
    rw [hv3, hv2]
    exact setVar_keys_sub h5.1 hs _

/-! ## Characterization of the line locator -/

theorem findIdxAux_spec (s : String) (k : Nat) :
    ∀ (ls : List String) (base : Nat),
      (∀ i, findIdxAux s k ls base = some i →
        base ≤ i ∧ i - base < ls.length ∧ k ≤ i ∧
        strIncludes (ls.getD (i - base) "") s = true ∧
        ∀ i', base ≤ i' → k ≤ i' → i' < i →
          strIncludes (ls.getD (i' - base) "") s = false) ∧
      (findIdxAux s k ls base = none →
        ∀ i', base ≤ i' → k ≤ i' → i' - base < ls.length →
          strIncludes (ls.getD (i' - base) "") s = false) := by
  intro ls
  induction ls with
  | nil =>
      intro base
      constructor
      · intro i hi; cases hi
      · intro _ i' _ _ hlen
        simp at hlen
  | cons l ls ih =>
      intro base
      simp only [findIdxAux]
      by_cases hc : k ≤ base ∧ strIncludes l s
      · rw [if_pos hc]
        constructor
        · intro i hi
          injection hi with hi
          subst hi
          refine ⟨le_refl _, by simp, hc.1, ?_, ?_⟩
          · simpa using hc.2
          · intro i' h1 _ h3; omega
        · intro hn; cases hn
      · rw [if_neg hc]
        constructor
        · intro i hi
          obtain ⟨ih1, _⟩ := ih (base + 1)
          obtain ⟨hb, hlen, hk, hinc, hmin⟩ := ih1 i hi
          have hib : base < i := by omega
          refine ⟨by omega, by simp; omega, hk, ?_, ?_⟩
          · have : i - base = (i - (base + 1)) + 1 := by omega
            rw [this, List.getD_cons_succ]
            exact hinc
          · intro i' h1 h2 h3
            rcases Nat.eq_or_lt_of_le h1 with rfl | hlt
            · have hninc : ¬ strIncludes l s = true := fun hstr => hc ⟨h2, hstr⟩
              simpa using Bool.eq_false_iff.mpr hninc
            · have : i' - base = (i' - (base + 1)) + 1 := by omega
              rw [this, List.getD_cons_succ]
              exact hmin i' (by omega) h2 h3
        · intro hn i' h1 h2 hlen
          obtain ⟨_, ih2⟩ := ih (base + 1)
          rcases Nat.eq_or_lt_of_le h1 with rfl | hlt
          · have hninc : ¬ strIncludes l s = true := fun hstr => hc ⟨h2, hstr⟩
            simpa using Bool.eq_false_iff.mpr hninc
          · have : i' - base = (i' - (base + 1)) + 1 := by omega
            rw [this, List.getD_cons_succ]
            refine ih2 hn i' (by omega) h2 ?_
            simp at hlen
            omega

/-- Full behaviour of `findLine`: positive result, exact first-match
semantics when a line matches (with an in-range 1-based result), and the
`startLine + 1` fallback when none does. -/
theorem findLine_spec (lines : List String) (s : String) (k : Nat) :
    1 ≤ findLine lines s k ∧
    (findIndexFrom lines s k = none → findLine lines s k = k + 1) ∧
    (∀ i, findIndexFrom lines s k = some i →
      findLine lines s k = i + 1 ∧ k ≤ i ∧ i < lines.length ∧
      strIncludes (lines.getD i "") s = true ∧
      (∀ i', k ≤ i' → i' < i → strIncludes (lines.getD i' "") s = false) ∧
      findLine lines s k ≤ lines.length) := by
  obtain ⟨h1, h2⟩ := findIdxAux_spec s k lines 0
  refine ⟨?_, ?_, ?_⟩
  · exact findLine_pos lines s k
  · intro hn
    unfold findLine
    rw [show findIndexFrom lines s k = none from hn]
  · intro i hi
    obtain ⟨_, hlen, hk, hinc, hmin⟩ := h1 i hi
    simp only [Nat.sub_zero] at hlen hinc hmin
    have hfl : findLine lines s k = i + 1 := by
      unfold findLine
      rw [show findIndexFrom lines s k = some i from hi]
    refine ⟨hfl, hk, hlen, hinc, ?_, by omega⟩
    intro i' hki hii
    exact hmin i' (by omega) hki hii

/-! ## Round trip: the rendered output parses back to the array -/

theorem natDigitsGo_fuel :
    ∀ (fuel : Nat) (fuel' n : Nat), n ≤ fuel → n ≤ fuel' →
      natDigitsGo fuel n = natDigitsGo fuel' n := by
  intro fuel
  induction fuel with
  | zero =>
      intro fuel' n h _
      have hn : n = 0 := by omega
      subst hn
      cases fuel' with
      | zero => rfl
      | succ k => simp [natDigitsGo]
  | succ fuel ih =>
      intro fuel' n h h'
      by_cases hn : n < 10
      · cases fuel' with
        | zero =>
            have : n = 0 := by omega
            subst this
            simp [natDigitsGo]
        | succ k => simp [natDigitsGo, hn]
      · cases fuel' with
        | zero => omega
        | succ k =>
            simp only [natDigitsGo, if_neg hn]
            rw [ih k (n / 10) (by omega) (by omega)]

theorem natDigits_lt {n : Nat} (h : n < 10) : natDigits n = [digitChar n] := by
  unfold natDigits
  cases n with
  | zero => rfl
  | succ m => simp [natDigitsGo, h]

theorem natDigits_ge {n : Nat} (h : ¬ n < 10) :
    natDigits n = natDigits (n / 10) ++ [digitChar (n % 10)] := by
  unfold natDigits
  cases hn : n with
  | zero => omega
  | succ m =>
      simp only [natDigitsGo, if_neg (hn ▸ h)]
      rw [natDigitsGo_fuel m ((m + 1) / 10) ((m + 1) / 10) (by omega) (le_refl _)]

theorem digitChar_isDigit {d : Nat} (h : d < 10) : (digitChar d).isDigit = true := by
  interval_cases d <;> decide

theorem digitVal_digitChar {d : Nat} (h : d < 10) : digitVal (digitChar d) = d := by
  interval_cases d <;> decide

theorem digitChar_ne_comma {d : Nat} (h : d < 10) : digitChar d ≠ ',' := by
  interval_cases d <;> decide

theorem digitChar_not_space {d : Nat} (h : d < 10) : isSpaceChar (digitChar d) = false := by
  interval_cases d <;> decide

theorem digitChar_ne_minus {d : Nat} (h : d < 10) : digitChar d ≠ '-' := by
  interval_cases d <;> decide

theorem natDigits_ne_nil (n : Nat) : natDigits n ≠ [] := by
  by_cases h : n < 10
  · rw [natDigits_lt h]; simp
  · rw [natDigits_ge h]; simp

theorem natDigits_mem {n : Nat} :
    ∀ c ∈ natDigits n, ∃ d, d < 10 ∧ c = digitChar d := by
  induction n using Nat.strong_induction_on with
  | _ n ih =>
      intro c hc
      by_cases h : n < 10
      · rw [natDigits_lt h] at hc
        simp only [List.mem_singleton] at hc
        exact ⟨n, h, hc⟩
      · rw [natDigits_ge h] at hc
        rcases List.mem_append.mp hc with hc | hc
        · exact ih (n / 10) (Nat.div_lt_self (by omega) (by omega)) c hc
        · simp only [List.mem_singleton] at hc
          exact ⟨n % 10, Nat.mod_lt _ (by omega), hc⟩

theorem parseDigits_natDigits (n : Nat) :
    ∀ (acc : Nat) (rest : List Char),
      parseDigits acc (natDigits n ++ rest) =
        parseDigits (acc * 10 ^ (natDigits n).length + n) rest := by
  induction n using Nat.strong_induction_on with
  | _ n ih =>
      intro acc rest
      by_cases h : n < 10
      · rw [natDigits_lt h]
        simp only [List.singleton_append, List.length_singleton, parseDigits,
          digitChar_isDigit h, if_pos, digitVal_digitChar h, pow_one, List.nil_append]
        rfl
      · rw [natDigits_ge h, List.append_assoc,
          ih (n / 10) (Nat.div_lt_self (by omega) (by omega)) acc
            ([digitChar (n % 10)] ++ rest)]
        have hm : n % 10 < 10 := Nat.mod_lt _ (by omega)
        simp only [List.singleton_append, parseDigits, digitChar_isDigit hm, if_pos,
          digitVal_digitChar hm, List.nil_append, List.length_append, List.length_singleton]
        have harg : (acc * 10 ^ (natDigits (n / 10)).length + n / 10) * 10 + n % 10 =
            acc * 10 ^ ((natDigits (n / 10)).length + 1) + n := by
          have hdm : n / 10 * 10 + n % 10 = n := by omega
          calc (acc * 10 ^ (natDigits (n / 10)).length + n / 10) * 10 + n % 10
              = acc * (10 ^ (natDigits (n / 10)).length * 10) +
                  (n / 10 * 10 + n % 10) := by ring
            _ = acc * 10 ^ ((natDigits (n / 10)).length + 1) + n := by
                rw [← pow_succ, hdm]
        rw [harg]
        rfl

theorem parseDigits_stop (acc : Nat) (rest : List Char)
    (h : rest = [] ∨ ∃ c cs, rest = c :: cs ∧ c.isDigit = false) :
    parseDigits acc rest = (acc, rest) := by
  rcases h with rfl | ⟨c, cs, rfl, hc⟩
  · rfl
  · simp [parseDigits, hc]

theorem parseIntChars_render (v : Int) (rest : List Char)
    (hrest : rest = [] ∨ ∃ c cs, rest = c :: cs ∧ c.isDigit = false) :
    parseIntChars ((intStr v).data ++ rest) = some (v, rest) := by
  cases v with
  | ofNat n =>
      have hdata : (intStr (Int.ofNat n)).data = natDigits n := rfl
      rw [hdata]
      obtain ⟨c, cs, hcons⟩ : ∃ c cs, natDigits n = c :: cs := by
        cases he : natDigits n with
        | nil => exact absurd he (natDigits_ne_nil n)
        | cons c cs => exact ⟨c, cs, rfl⟩
      obtain ⟨d, hd, hcd⟩ := natDigits_mem c (hcons ▸ List.mem_cons_self c cs)
      rw [hcons, List.cons_append]
      simp only [parseIntChars]
      rw [if_neg (by rw [hcd]; exact digitChar_ne_minus hd),
        if_pos (by rw [hcd]; exact digitChar_isDigit hd)]
      rw [← List.cons_append, ← hcons, parseDigits_natDigits n 0 rest,
        parseDigits_stop _ _ hrest]
      simp

  | negSucc m =>
      have hdata : (intStr (Int.negSucc m)).data = '-' :: natDigits (m + 1) := by
        show (("-" : String) ++ natStr (m + 1)).data = '-' :: natDigits (m + 1)
        rw [String.data_append]
        rfl
      rw [hdata]
      obtain ⟨c, cs, hcons⟩ : ∃ c cs, natDigits (m + 1) = c :: cs := by
        cases he : natDigits (m + 1) with
        | nil => exact absurd he (natDigits_ne_nil (m + 1))
        | cons c cs => exact ⟨c, cs, rfl⟩
      obtain ⟨d, hd, hcd⟩ := natDigits_mem c (hcons ▸ List.mem_cons_self c cs)
      rw [List.cons_append, hcons, List.cons_append]
      simp only [parseIntChars]
      rw [if_pos trivial, if_pos (by rw [hcd]; exact digitChar_isDigit hd),
        show (c :: (cs ++ rest)) = natDigits (m + 1) ++ rest by rw [hcons, List.cons_append],
        parseDigits_natDigits (m + 1) 0 rest, parseDigits_stop _ _ hrest]
      simp only [Nat.zero_mul, Nat.zero_add]
      rw [show (-(((m + 1 : Nat)) : Int)) = Int.negSucc m by simp [Int.negSucc_eq]]

theorem intStr_no_comma (v : Int) : ',' ∉ (intStr v).data := by
  cases v with
  | ofNat n =>
      intro hmem
      obtain ⟨d, hd, hcd⟩ := natDigits_mem (n := n) ',' hmem
      exact digitChar_ne_comma hd hcd.symm
  | negSucc m =>
      intro hmem
      have hdata : (intStr (Int.negSucc m)).data = '-' :: natDigits (m + 1) := by
        show (("-" : String) ++ natStr (m + 1)).data = '-' :: natDigits (m + 1)
        rw [String.data_append]
        rfl
      rw [hdata] at hmem
      rcases List.mem_cons.mp hmem with h | h
      · cases h
      · obtain ⟨d, hd, hcd⟩ := natDigits_mem (n := m + 1) ',' h
        exact digitChar_ne_comma hd hcd.symm

theorem intStr_head_not_space (v : Int) :
    ∃ c cs, (intStr v).data = c :: cs ∧ isSpaceChar c = false := by
  cases v with
  | ofNat n =>
      have hdata : (intStr (Int.ofNat n)).data = natDigits n := rfl
      obtain ⟨c, cs, hcons⟩ : ∃ c cs, natDigits n = c :: cs := by
        cases he : natDigits n with
        | nil => exact absurd he (natDigits_ne_nil n)
        | cons c cs => exact ⟨c, cs, rfl⟩
      obtain ⟨d, hd, hcd⟩ := natDigits_mem c (hcons ▸ List.mem_cons_self c cs)
      exact ⟨c, cs, by rw [hdata, hcons], by rw [hcd]; exact digitChar_not_space hd⟩
  | negSucc m =>
      refine ⟨'-', natDigits (m + 1), ?_, by decide⟩
      show (("-" : String) ++ natStr (m + 1)).data = '-' :: natDigits (m + 1)
      rw [String.data_append]
      rfl

theorem skipWs_cons_space {c : Char} (h : isSpaceChar c = true) (p : List Char) :
    skipWs (c :: p) = skipWs p := by
  simp [skipWs, List.dropWhile_cons, h]

theorem skipWs_cons_not_space {c : Char} (h : isSpaceChar c = false) (p : List Char) :
    skipWs (c :: p) = c :: p := by
  simp [skipWs, List.dropWhile_cons, h]

theorem parseElem_render (v : Int) : parseElem ((intStr v).data) = some v := by
  obtain ⟨c, cs, hcons, hns⟩ := intStr_head_not_space v
  have hskip : skipWs ((intStr v).data) = (intStr v).data := by
    rw [hcons]
    exact skipWs_cons_not_space hns cs
  have hp : parseIntChars ((intStr v).data) = some (v, []) := by
    have := parseIntChars_render v [] (Or.inl rfl)
    rwa [List.append_nil] at this
  unfold parseElem
  rw [hskip, hp]
  rfl

theorem parseElem_space (p : List Char) : parseElem (' ' :: p) = parseElem p := by
  unfold parseElem
  rw [skipWs_cons_space (by decide) p]

theorem splitComma_ne_nil : ∀ cs : List Char, ∃ p ps, splitComma cs = p :: ps := by
  intro cs
  induction cs with
  | nil => exact ⟨[], [], rfl⟩
  | cons c cs ih =>
      obtain ⟨p, ps, h⟩ := ih
      by_cases hc : c = ','
      · exact ⟨[], splitComma cs, by simp [splitComma, hc]⟩
      · exact ⟨c :: p, ps, by simp only [splitComma, if_neg hc]; rw [h]⟩

theorem splitComma_no_comma : ∀ xs : List Char, ',' ∉ xs → splitComma xs = [xs] := by
  intro xs
  induction xs with
  | nil => intro _; rfl
  | cons c cs ih =>
      intro h
      have hc : c ≠ ',' := by
        rintro rfl
        exact h (List.mem_cons_self _ _)
      have hcs : ',' ∉ cs := fun hm => h (List.mem_cons_of_mem c hm)
      simp only [splitComma, if_neg hc]
      rw [ih hcs]

theorem splitComma_append : ∀ (xs ys : List Char), ',' ∉ xs →
    splitComma (xs ++ ',' :: ys) = xs :: splitComma ys := by
  intro xs
  induction xs with
  | nil =>
      intro ys _
      simp [splitComma]
  | cons c cs ih =>
      intro ys h
      have hc : c ≠ ',' := by
        rintro rfl
        exact h (List.mem_cons_self _ _)
      have hcs : ',' ∉ cs := fun hm => h (List.mem_cons_of_mem c hm)
      simp only [List.cons_append, splitComma, if_neg hc]
      show (match splitComma (cs ++ ',' :: ys) with
            | p :: ps => (c :: p) :: ps
            | [] => [[c]]) = (c :: cs) :: splitComma ys
      rw [ih ys hcs]

theorem splitComma_mapM_join : ∀ (vs : List Int) (v : Int),
    ((splitComma ((joinSep ", " ((v :: vs).map intStr)).data)).mapM parseElem) =
      some (v :: vs) := by
  intro vs
  induction vs with
  | nil =>
      intro v
      rw [show joinSep ", " (([v] : List Int).map intStr) = intStr v from rfl,
        splitComma_no_comma _ (intStr_no_comma v), List.mapM_cons, parseElem_render]
      rfl
  | cons w ws ih =>
      intro v
      rw [show joinSep ", " (((v :: w :: ws) : List Int).map intStr) =
          intStr v ++ ", " ++ joinSep ", " ((w :: ws).map intStr) from rfl,
        String.data_append, String.data_append,
        show (", " : String).data = [',', ' '] from rfl, List.append_assoc,
        show (([',', ' '] : List Char) ++ (joinSep ", " ((w :: ws).map intStr)).data) =
          ',' :: (' ' :: (joinSep ", " ((w :: ws).map intStr)).data) from rfl,
        splitComma_append _ _ (intStr_no_comma v)]
      obtain ⟨p, ps, hps⟩ := splitComma_ne_nil ((joinSep ", " ((w :: ws).map intStr)).data)
      rw [show splitComma (' ' :: (joinSep ", " ((w :: ws).map intStr)).data) =
          (' ' :: p) :: ps from by simp only [splitComma, if_neg (by decide : ¬ (' ' = ','))]; rw [hps]]
      have hsp : List.mapM parseElem ((' ' :: p) :: ps) = List.mapM parseElem (p :: ps) := by
        rw [List.mapM_cons, List.mapM_cons, parseElem_space]
      rw [List.mapM_cons, parseElem_render, hsp, ← hps, ih w]
      rfl

theorem joinArr_head_not_space (v : Int) (vs : List Int) :
    ∃ c cs, (joinArr (v :: vs)).data = c :: cs ∧ isSpaceChar c = false := by
  obtain ⟨c, cs, hcons, hns⟩ := intStr_head_not_space v
  cases vs with
  | nil => exact ⟨c, cs, by rw [show joinArr [v] = intStr v from rfl, hcons], hns⟩
  | cons w ws =>
      refine ⟨c, cs ++ (", " ++ joinSep ", " ((w :: ws).map intStr)).data, ?_, hns⟩
      rw [show joinArr (v :: w :: ws) =
          intStr v ++ (", " ++ joinSep ", " ((w :: ws).map intStr)) from by
        simp [joinArr, joinSep, String.append_assoc]]
      rw [String.data_append, hcons, List.cons_append]

/-- The rendered output round-trips through the evaluator. -/
theorem evalArrayLit_renderArr (l : List Int) : evalArrayLit (renderArr l) = some l := by
  have hdata : (renderArr l).data = '[' :: ((joinArr l).data ++ [']']) := by
    show (("[" : String) ++ joinArr l ++ "]").data = _
    rw [String.data_append, String.data_append]
    rfl
  unfold evalArrayLit
  rw [hdata]
  simp only [evalArrayChars]
  rw [if_pos trivial, List.getLast?_concat, if_pos rfl, List.dropLast_concat]
  cases l with
  | nil =>
      rw [show (joinArr ([] : List Int)).data = [] from rfl]
      rfl
  | cons v vs =>
      obtain ⟨c, cs, hcons, hns⟩ := joinArr_head_not_space v vs
      rw [if_neg (show ¬ ((joinArr (v :: vs)).data.all isSpaceChar = true) from by
        rw [hcons]
        simp [List.all_cons, hns])]
      exact splitComma_mapM_join vs v

/-! ## Concrete source texts

`defaultCode` is the JavaScript bubble-sort example shipped with the app
(`defaultCode.javascript` in the UI component); the other two replace the
array literal with the edge-case inputs.
-/

set_option maxRecDepth 10000

/-- The default JavaScript bubble-sort source of the repository. -/
def defaultCode : String := "function bubbleSort(arr) \x7b\n    const n = arr.length;\n    for (let i = 0; i < n; i++) \x7b\n        for (let j = 0; j < n - i - 1; j++) \x7b\n            if (arr[j] > arr[j + 1]) \x7b\n                [arr[j], arr[j + 1]] = [arr[j + 1], arr[j]];\n            \x7d\n        \x7d\n    \x7d\n    return arr;\n\x7d\n\nlet myArray = [64, 34, 25, 12, 22, 11, 90];\nlet sortedArray = bubbleSort(myArray);\nconsole.log(sortedArray);"

/-- The default source with the empty input array. -/
def codeEmpty : String := "function bubbleSort(arr) \x7b\n    const n = arr.length;\n    for (let i = 0; i < n; i++) \x7b\n        for (let j = 0; j < n - i - 1; j++) \x7b\n            if (arr[j] > arr[j + 1]) \x7b\n                [arr[j], arr[j + 1]] = [arr[j + 1], arr[j]];\n            \x7d\n        \x7d\n    \x7d\n    return arr;\n\x7d\n\nlet myArray = [];\nlet sortedArray = bubbleSort(myArray);\nconsole.log(sortedArray);"

/-- The default source with the singleton input array `[5]`. -/
def codeSingle : String := "function bubbleSort(arr) \x7b\n    const n = arr.length;\n    for (let i = 0; i < n; i++) \x7b\n        for (let j = 0; j < n - i - 1; j++) \x7b\n            if (arr[j] > arr[j + 1]) \x7b\n                [arr[j], arr[j + 1]] = [arr[j + 1], arr[j]];\n            \x7d\n        \x7d\n    \x7d\n    return arr;\n\x7d\n\nlet myArray = [5];\nlet sortedArray = bubbleSort(myArray);\nconsole.log(sortedArray);"

/-! ## The claims -/

/-- Claim C1: for every successful trace generation, the array captured in
the final "sorting complete" step (the value bound to `sortedArray`) is
non-decreasing and is a permutation of the initial input array extracted
from the source. -/
theorem claimC1_sorted_perm (code : String) (tr : List ExecutionStep)
    (h : run code = Except.ok tr) :
    ∃ m nm lit a pre s2 s3 s,
      matchArrInit (joinSep "\n" (splitLines code)) = some (m, nm, lit) ∧
      evalArrayLit lit = some a ∧
      tr = pre ++ [s2, s3] ∧
      s2.description = "Sorting complete. Final array assigned to 'sortedArray'." ∧
      lookupVar s2.vars "sortedArray" = some (Value.arr s) ∧
      List.Sorted (· ≤ ·) s ∧
      s.Perm a := by
  obtain ⟨m, nm, lit, a, hm, he, htr⟩ := run_ok_elim h
  obtain ⟨s0, s1, mid, s2, s3, hsim, h0, h1, hv2, hd2, ho2, hv3, hd3, ho3⟩ :=
    runSim_struct (splitLines code) m nm a
  obtain ⟨hsorted, hperm⟩ := bubbleAux_sorted_perm a
  refine ⟨m, nm, lit, a, s0 :: s1 :: mid, s2, s3, bubbleAux a.length a,
    hm, he, ?_, hd2, ?_, hsorted, hperm⟩
  · rw [htr, hsim]
    simp
  · rw [hv2]
    exact lookupVar_setVar_self _ _ _

/-- Witness for C1 at the repository's default bubble-sort source. -/
theorem claimC1_witness :
    ∃ m nm lit a pre s2 s3 s,
      matchArrInit (joinSep "\n" (splitLines defaultCode)) = some (m, nm, lit) ∧
      evalArrayLit lit = some a ∧
      runD defaultCode = pre ++ [s2, s3] ∧
      s2.description = "Sorting complete. Final array assigned to 'sortedArray'." ∧
      lookupVar s2.vars "sortedArray" = some (Value.arr s) ∧
      List.Sorted (· ≤ ·) s ∧
      s.Perm a :=
  claimC1_sorted_perm defaultCode (runD defaultCode) (by rfl)

/-- Claim C2: a successful generation over an extracted array of length `n`
with `k` total swaps emits exactly
`2 + n + Σ(n-i-1) + Σ(n-i-1) + 2k + 2` steps. -/
theorem claimC2_step_count (code : String) (tr : List ExecutionStep)
    (h : run code = Except.ok tr) :
    ∃ m nm lit a,
      matchArrInit (joinSep "\n" (splitLines code)) = some (m, nm, lit) ∧
      evalArrayLit lit = some a ∧
      tr.length =
        2 + a.length +
          ((List.range a.length).map (fun i => a.length - i - 1)).sum +
          ((List.range a.length).map (fun i => a.length - i - 1)).sum +
          2 * totalSwaps a + 2 := by
  obtain ⟨m, nm, lit, a, hm, he, htr⟩ := run_ok_elim h
  refine ⟨m, nm, lit, a, hm, he, ?_⟩
  rw [htr, runSim_length, map_sum_linear, List.length_range]
  omega

/-- Witness for C2 at the default source: n = 7, 14 swaps, 81 steps. -/
theorem claimC2_witness :
    (∃ m nm lit a,
      matchArrInit (joinSep "\n" (splitLines defaultCode)) = some (m, nm, lit) ∧
      evalArrayLit lit = some a ∧
      (runD defaultCode).length =
        2 + a.length +
          ((List.range a.length).map (fun i => a.length - i - 1)).sum +
          ((List.range a.length).map (fun i => a.length - i - 1)).sum +
          2 * totalSwaps a + 2) ∧
    totalSwaps [64, 34, 25, 12, 22, 11, 90] = 14 ∧
    (runD defaultCode).length = 81 :=
  ⟨claimC2_step_count defaultCode (runD defaultCode) (by rfl), by rfl, by rfl⟩

/-- Counterexample to claim C3: on the input array `[5]` the trace has five
steps, not four, and contains an outer-loop iteration step — the outer loop
runs once when `n = 1`, not zero times. -/
theorem claimC3_counterexample :
    (runD codeSingle).length = 5 ∧
    ((runD codeSingle).getD 2 dummyStep).description =
      "Outer loop starts iteration. 'i' is now 0." ∧
    ¬ (runD codeSingle).length = 4 :=
  ⟨by rfl, by decide, by decide⟩

/-- Claim C3 as amended: for the input `[]` the trace is exactly the four
non-loop steps; for `[5]` it is those four steps plus exactly one
outer-loop iteration step (the outer loop runs `n` times, so once for
`n = 1`), and no inner-loop, comparison, or swap steps. -/
theorem claimC3_amended :
    run codeEmpty = Except.ok (runD codeEmpty) ∧
    (runD codeEmpty).map (fun st => st.description) =
      ["Initialize array 'myArray' with 0 elements.",
       "Initialize 'n' with the length of the array, which is 0.",
       "Sorting complete. Final array assigned to 'sortedArray'.",
       "Printing the final sorted array to the console."] ∧
    run codeSingle = Except.ok (runD codeSingle) ∧
    (runD codeSingle).map (fun st => st.description) =
      ["Initialize array 'myArray' with 1 elements.",
       "Initialize 'n' with the length of the array, which is 1.",
       "Outer loop starts iteration. 'i' is now 0.",
       "Sorting complete. Final array assigned to 'sortedArray'.",
       "Printing the final sorted array to the console."] :=
  ⟨by rfl, by decide, by rfl, by decide⟩

/-- Counterexample to claim C4 as stated: on an empty list of source lines
(or any start index at or past the end) the fallback `startIndex + 1`
exceeds the number of lines, so the result can be out of range. -/
theorem claimC4_counterexample :
    findLine [] "x" 0 = 1 ∧
    List.length ([] : List String) = 0 ∧
    ¬ findLine [] "x" 0 ≤ List.length ([] : List String) := by
  refine ⟨rfl, rfl, ?_⟩
  decide

/-- Claim C4 as amended: `findLine` returns the 1-based number of the first
line at or after the start index containing the substring (an in-range
result); when no line matches it returns `startIndex + 1`, which is never
zero but exceeds the line count exactly when the start index is at or past
the end of the list. -/
theorem claimC4_line_locator (lines : List String) (s : String) (k : Nat) :
    1 ≤ findLine lines s k ∧
    (findIndexFrom lines s k = none → findLine lines s k = k + 1) ∧
    (∀ i, findIndexFrom lines s k = some i →
      findLine lines s k = i + 1 ∧ k ≤ i ∧ i < lines.length ∧
      strIncludes (lines.getD i "") s = true ∧
      (∀ i', k ≤ i' → i' < i → strIncludes (lines.getD i' "") s = false) ∧
      findLine lines s k ≤ lines.length) ∧
    (k < lines.length → findLine lines s k ≤ lines.length) := by
  obtain ⟨h1, h2, h3⟩ := findLine_spec lines s k
  refine ⟨h1, h2, h3, ?_⟩
  intro hk
  cases hi : findIndexFrom lines s k with
  | none => rw [h2 hi]; omega
  | some i => exact (h3 i hi).2.2.2.2.2

/-- Witness for the amended C4 at a concrete two-line input. -/
theorem claimC4_witness :
    findLine ["ab", "cd"] "cd" 0 = 1 + 1 ∧ 0 ≤ 1 ∧ 1 < List.length ["ab", "cd"] := by
  have h := (claimC4_line_locator ["ab", "cd"] "cd" 0).2.2.1 1 (by decide)
  exact ⟨h.1, h.2.1, h.2.2.1⟩

/-- Claim C6: in every successful trace the final step's captured output is
the rendered final array, and parsing it back through the array evaluator
yields exactly that (sorted) array; concretely, input
`[64, 34, 25, 12, 22, 11, 90]` shows `[11, 12, 22, 25, 34, 64, 90]` in the
last array-bearing step and in the final output. -/
theorem claimC6_output_correct :
    (∀ (code : String) (tr : List ExecutionStep), run code = Except.ok tr →
      ∃ pre s2 s3 s,
        tr = pre ++ [s2, s3] ∧
        lookupVar s2.vars "sortedArray" = some (Value.arr s) ∧
        s3.output = some [renderArr s] ∧
        evalArrayLit (renderArr s) = some s ∧
        List.Sorted (· ≤ ·) s) ∧
    run defaultCode = Except.ok (runD defaultCode) ∧
    lookupVar ((runD defaultCode).getD ((runD defaultCode).length - 2) dummyStep).vars
      "sortedArray" = some (Value.arr [11, 12, 22, 25, 34, 64, 90]) ∧
    ((runD defaultCode).getD ((runD defaultCode).length - 1) dummyStep).output =
      some ["[11, 12, 22, 25, 34, 64, 90]"] ∧
    evalArrayLit "[11, 12, 22, 25, 34, 64, 90]" =
      some [11, 12, 22, 25, 34, 64, 90] := by
  refine ⟨?_, by rfl, by decide, by decide, by decide⟩
  intro code tr h
  obtain ⟨m, nm, lit, a, hm, he, htr⟩ := run_ok_elim h
  obtain ⟨s0, s1, mid, s2, s3, hsim, h0, h1, hv2, hd2, ho2, hv3, hd3, ho3⟩ :=
    runSim_struct (splitLines code) m nm a
  refine ⟨s0 :: s1 :: mid, s2, s3, bubbleAux a.length a, ?_, ?_, ho3,
    evalArrayLit_renderArr _, (bubbleAux_sorted_perm a).1⟩
  · rw [htr, hsim]
    simp
  · rw [hv2]
    exact lookupVar_setVar_self _ _ _

/-- Witness for the universally quantified part of C6 at the default source. -/
theorem claimC6_witness :
    ∃ pre s2 s3 s,
      runD defaultCode = pre ++ [s2, s3] ∧
      lookupVar s2.vars "sortedArray" = some (Value.arr s) ∧
      s3.output = some [renderArr s] ∧
      evalArrayLit (renderArr s) = some s ∧
      List.Sorted (· ≤ ·) s :=
  claimC6_output_correct.1 defaultCode (runD defaultCode) (by rfl)

/-- Claim C7: when the source contains no statement matching the
array-initialization shape, the run fails with the descriptive error naming
the expected shape, no step sequence is produced, and (when the coarse
shape check passes) the entry point surfaces that single error. -/
theorem claimC7_no_array_init (code : String)
    (h : matchArrInit (joinSep "\n" (splitLines code)) = none) :
    run code = Except.error "Could not find an array initialization like 'let myArray = [...]'. The simulator is not generic enough for this code." ∧
    (∀ tr, ¬ run code = Except.ok tr) ∧
    (strIncludes code "bubbleSort" = true → strIncludes code "arr.length" = true →
      generateExecutionTrace code Lang.javascript =
        Except.error ("Simulation Failed: " ++ "Could not find an array initialization like 'let myArray = [...]'. The simulator is not generic enough for this code.")) := by
  have hrun : run code = Except.error "Could not find an array initialization like 'let myArray = [...]'. The simulator is not generic enough for this code." := by
    simp only [run]
    rw [h]
  refine ⟨hrun, ?_, ?_⟩
  · intro tr hc
    rw [hrun] at hc
    cases hc
  · intro h1 h2
    unfold generateExecutionTrace
    rw [if_neg (by simp : ¬ (Lang.javascript = Lang.python)),
      if_neg (show ¬ ((!strIncludes code "bubbleSort" ||
        !strIncludes code "arr.length") = true) from by simp [h1, h2]),
      hrun]

/-- Witness for C7: a source passing the coarse check but with no array
initialization. -/
theorem claimC7_witness :
    run "bubbleSort arr.length" = Except.error "Could not find an array initialization like 'let myArray = [...]'. The simulator is not generic enough for this code." ∧
    (∀ tr, ¬ run "bubbleSort arr.length" = Except.ok tr) ∧
    (strIncludes "bubbleSort arr.length" "bubbleSort" = true →
      strIncludes "bubbleSort arr.length" "arr.length" = true →
      generateExecutionTrace "bubbleSort arr.length" Lang.javascript =
        Except.error ("Simulation Failed: " ++ "Could not find an array initialization like 'let myArray = [...]'. The simulator is not generic enough for this code.")) :=
  claimC7_no_array_init "bubbleSort arr.length" (by decide)

/-- Claim C8: requesting the unsupported 'python' selector fails
immediately with the switch-language message, for every source text; the
`Except.error` value carries no step sequence, and `run` is never reached. -/
theorem claimC8_unsupported_language (code : String) :
    generateExecutionTrace code Lang.python =
      Except.error "This non-AI demonstrator currently only supports the JavaScript bubble sort example. Please switch languages." := by
  unfold generateExecutionTrace
  rw [if_pos rfl]

/-- Claim C9: trace generation is deterministic — two successful runs on
the same source agree in length and, position by position, in line number,
variables snapshot, description, and output. -/
theorem claimC9_determinism (code : String) (t1 t2 : List ExecutionStep)
    (h1 : run code = Except.ok t1) (h2 : run code = Except.ok t2) :
    t1 = t2 ∧
    t1.length = t2.length ∧
    ∀ idx : Nat,
      (t1.getD idx dummyStep).lineNumber = (t2.getD idx dummyStep).lineNumber ∧
      (t1.getD idx dummyStep).vars = (t2.getD idx dummyStep).vars ∧
      (t1.getD idx dummyStep).description = (t2.getD idx dummyStep).description ∧
      (t1.getD idx dummyStep).output = (t2.getD idx dummyStep).output := by
  have heq : t1 = t2 := by
    rw [h1] at h2
    exact Except.ok.inj h2
  subst heq
  exact ⟨rfl, rfl, fun idx => ⟨rfl, rfl, rfl, rfl⟩⟩

/-- Witness for C9: both hypotheses discharged at the default source. -/
theorem claimC9_witness :
    runD defaultCode = runD defaultCode ∧ (runD defaultCode).length = 81 :=
  ⟨(claimC9_determinism defaultCode (runD defaultCode) (runD defaultCode)
      (by rfl) (by rfl)).1, by rfl⟩

/-- Claim C10: snapshot variable names are drawn from the extracted array
name plus the hardcoded `n`, `i`, `j`, `sortedArray`; the length is bound
to the literal name `n` and the final result to the literal name
`sortedArray`. -/
theorem claimC10_variable_names (code : String) (tr : List ExecutionStep)
    (h : run code = Except.ok tr) :
    ∃ m nm lit a,
      matchArrInit (joinSep "\n" (splitLines code)) = some (m, nm, lit) ∧
      evalArrayLit lit = some a ∧
      (∀ step ∈ tr, ∀ q ∈ step.vars, q.1 ∈ [nm, "n", "i", "j", "sortedArray"]) ∧
      ∃ s0 s1 mid s2 s3,
        tr = s0 :: s1 :: (mid ++ [s2, s3]) ∧
        lookupVar s1.vars "n" = some (Value.num a.length) ∧
        ∃ s, lookupVar s2.vars "sortedArray" = some (Value.arr s) := by
  obtain ⟨m, nm, lit, a, hm, he, htr⟩ := run_ok_elim h
  obtain ⟨s0, s1, mid, s2, s3, hsim, h0, h1, hv2, _, _, _, _, _⟩ :=
    runSim_struct (splitLines code) m nm a
  refine ⟨m, nm, lit, a, hm, he, ?_, s0, s1, mid, s2, s3, ?_, ?_,
    bubbleAux a.length a, ?_⟩
  · rw [htr]
    exact runSim_keys _ _ _ _
  · rw [htr, hsim]
  · rw [h1]
    exact lookupVar_setVar_self _ _ _
  · rw [hv2]
    exact lookupVar_setVar_self _ _ _

/-- Witness for C10 at the default source. -/
theorem claimC10_witness :
    ∃ m nm lit a,
      matchArrInit (joinSep "\n" (splitLines defaultCode)) = some (m, nm, lit) ∧
      evalArrayLit lit = some a ∧
      (∀ step ∈ runD defaultCode, ∀ q ∈ step.vars,
        q.1 ∈ [nm, "n", "i", "j", "sortedArray"]) ∧
      ∃ s0 s1 mid s2 s3,
        runD defaultCode = s0 :: s1 :: (mid ++ [s2, s3]) ∧
        lookupVar s1.vars "n" = some (Value.num a.length) ∧
        ∃ s, lookupVar s2.vars "sortedArray" = some (Value.arr s) :=
  claimC10_variable_names defaultCode (runD defaultCode) (by rfl)
